import Mathlib

/-
Verification development for the XSwinDiffusion repository.

Shallow embedding of:
- src/models/xswin.py : pad_expansion, patch_expanding_pad, extract_windows,
  the matching window-merge in SwinResidualCrossAttention.forward, and the
  stochastic-depth probability schedule in XNetSwinTransformer's constructor;
- src/models/modules/geodesic_loss.py : SpecialEuclideanGeodesicLoss.forward;
- src/models/modules/modulated/vit_block.py : ViTEncoderBlock_Modulated.forward;
- src/pose_estimation/pose_data_class.py : PoseData.organize_data,
  PoseData.level_split and PoseData.__getitem__.

Tensors with a fixed number of axes are embedded as total functions from
natural-number indices to values; leading batch axes that every operation maps
over elementwise are dropped where a claim does not quantify over them.
Shapes are tracked separately where a claim is about shapes.  Python
exceptions are embedded with Except over the PyErr error type.
-/

set_option autoImplicit false

/-- Python exceptions raised by the embedded code paths. -/
inductive PyErr where
  | notImplemented  -- NotImplementedError
  | keyError        -- KeyError
  | assertErr       -- AssertionError (torch assert)
  | unboundLocal    -- UnboundLocalError
  deriving DecidableEq, Repr

/-- Shape of a tensor with layout [H, W, C] (leading batch dims dropped). -/
structure TShape3 where
  H : Nat
  W : Nat
  C : Nat
  deriving DecidableEq, Repr

/-- A real-valued tensor with layout [H, W, C]: a shape together with a total
valuation of the entries (junk outside the shape bounds, never consulted by
in-range reasoning). -/
structure NTensor3 where
  shape : TShape3
  val : Nat → Nat → Nat → ℝ

/-
src/models/xswin.py, _pad_expansion:
    *B, H, W, C = x.shape
    pad_c = (4 - C % 4) % 4
    if pad_c == 0: return x
    if not distributed:
        x = F.pad(x, (0, pad_c), "constant", 0)   -- zero-pad end of channels
        return x
    else:
        raise NotImplementedError()
-/

/-- Channel count after `_pad_expansion` padding: C plus `(4 - C % 4) % 4`. -/
def pad_expansion_c (C : Nat) : Nat := C + (4 - C % 4) % 4

/-- Embedding of `_pad_expansion` (src/models/xswin.py lines 16-28). -/
def pad_expansion (x : NTensor3) (distributed : Bool) :
    Except PyErr NTensor3 :=
  let pad_c := (4 - x.shape.C % 4) % 4
  if pad_c = 0 then
    Except.ok x
  else if distributed = false then
    Except.ok ⟨⟨x.shape.H, x.shape.W, x.shape.C + pad_c⟩,
      fun h w c => if c < x.shape.C then x.val h w c else 0⟩
  else
    Except.error PyErr.notImplemented

/-
src/models/xswin.py, _patch_expanding_pad (shape level):
    *B, H_HALF, W_HALF, C_QUAD = x.shape
    C = C_QUAD // 4
    x = _pad_expansion(x)
    x = x.view(*B, H_HALF, W_HALF, 2, 2, C)      -- requires equal numel
    x = x.permute(0, 1, 3, 2, 4, 5).contiguous()
    x = x.view(*B, H_HALF * 2, W_HALF * 2, C)
The permute and the final view never change the element count, so the shape
behaviour is determined by the padded channel count and the first view's
numel compatibility check.
-/

/-- Shape semantics of `_patch_expanding_pad` (src/models/xswin.py lines
30-43): `none` when the `view(*B, H, W, 2, 2, C)` step would fail because the
padded element count differs from the target element count. -/
def patch_expanding_pad_shape (s : TShape3) : Option TShape3 :=
  let C := s.C / 4
  if s.H * s.W * pad_expansion_c s.C = s.H * s.W * (2 * 2 * C) then
    some ⟨2 * s.H, 2 * s.W, C⟩
  else
    none

/-
src/models/xswin.py, _extract_windows (value level, one batch slice;
unfold/permute/reshape all act identically on each leading batch index):
    unfolded_height = feature_map.unfold(-3, window_height, stride_height)
    unfolded_both = unfolded_height.unfold(-3, window_width, stride_width)
    windows = unfolded_both.permute(0, -5, -4, -2, -1, -3)
    windows = windows.reshape(*B, H_unfolded, W_unfolded, wh * ww, C)
-/

/-- `feature_map.unfold(-3, window_height, stride_height)`: on a [H, W, C]
tensor this unfolds the H axis, appending the intra-window offset as a new
trailing axis: index order [i, w, c, a] with value `x (i*sh + a) w c`. -/
def unfoldHeight {α : Type} (x : Nat → Nat → Nat → α) (sh : Nat) :
    Nat → Nat → Nat → Nat → α :=
  fun i w c a => x (i * sh + a) w c

/-- `.unfold(-3, window_width, stride_width)`: axis -3 is now W; index order
becomes [i, j, c, a, b] with value `x (i*sh + a) (j*sw + b) c`. -/
def unfoldWidth {α : Type} (u : Nat → Nat → Nat → Nat → α) (sw : Nat) :
    Nat → Nat → Nat → Nat → Nat → α :=
  fun i j c a b => u i (j * sw + b) c a

/-- `.permute(0, -5, -4, -2, -1, -3)` (batch axis 0 dropped): reorders
[i, j, c, a, b] to [i, j, a, b, c]. -/
def permuteWindows {α : Type} (u : Nat → Nat → Nat → Nat → Nat → α) :
    Nat → Nat → Nat → Nat → Nat → α :=
  fun i j a b c => u i j c a b

/-- `.reshape(*B, H_unfolded, W_unfolded, window_height * window_width, C)`:
flattens the two intra-window axes into one of extent wh*ww; the flat index k
decomposes as a = k / ww, b = k % ww. -/
def flattenWindow {α : Type} (ww : Nat) (u : Nat → Nat → Nat → Nat → Nat → α) :
    Nat → Nat → Nat → Nat → α :=
  fun i j k c => u i j (k / ww) (k % ww) c

/-- Embedding of `_extract_windows` (src/models/xswin.py lines 82-115), one
batch slice, with explicit strides (the code defaults them to the window
size). -/
def extract_windows {α : Type} (x : Nat → Nat → Nat → α)
    (wh ww sh sw : Nat) : Nat → Nat → Nat → Nat → α :=
  flattenWindow ww (permuteWindows (unfoldWidth (unfoldHeight x sh) sw))

/-
src/models/xswin.py, SwinResidualCrossAttention.forward lines 140-142
(the merge applied to the attended windows):
    attended = attended.reshape(*B, H, W, wh, ww, C)
    attended = attended.permute(0, -5, -3, -4, -2, -1)
    attended = attended.reshape(*B, H * wh, W * ww, C)
-/

/-- `.reshape(*B, H, W, window_height, window_width, C)`: splits the flat
window axis back into the pair [a, b] in row-major order (flat index
k = a*ww + b), so the entry at [i, j, a, b, c] is `u i j (a*ww + b) c`. -/
def unflattenWindow {α : Type} (ww : Nat) (u : Nat → Nat → Nat → Nat → α) :
    Nat → Nat → Nat → Nat → Nat → α :=
  fun i j a b c => u i j (a * ww + b) c

/-- `.permute(0, -5, -3, -4, -2, -1)` (batch axis 0 dropped): reorders
[i, j, a, b, c] to [i, a, j, b, c]. -/
def permuteMerge {α : Type} (u : Nat → Nat → Nat → Nat → Nat → α) :
    Nat → Nat → Nat → Nat → Nat → α :=
  fun i a j b c => u i j a b c

/-- `.reshape(*B, H * wh, W * ww, C)`: fuses [i, a] into h = i*wh + a and
[j, b] into w = j*ww + b, so the entry at [h, w, c] is read at
i = h / wh, a = h % wh, j = w / ww, b = w % ww. -/
def mergeReshape {α : Type} (wh ww : Nat)
    (u : Nat → Nat → Nat → Nat → Nat → α) : Nat → Nat → Nat → α :=
  fun h w c => u (h / wh) (h % wh) (w / ww) (w % ww) c

/-- The window merge performed by `SwinResidualCrossAttention.forward`
(src/models/xswin.py lines 140-142), one batch slice. -/
def merge_windows {α : Type} (wh ww : Nat)
    (u : Nat → Nat → Nat → Nat → α) : Nat → Nat → Nat → α :=
  mergeReshape wh ww (permuteMerge (unflattenWindow ww u))

/-
Shape semantics of torch.Tensor.unfold(dim, size, step):
the unfolded axis has extent (n - size) / step + 1 (floor division), i.e.
windows that do not fit are truncated away.
-/

/-- Number of windows produced by `unfold` along an axis of extent n. -/
def unfoldCount (n win stride : Nat) : Nat := (n - win) / stride + 1

/-- Shape of the `_extract_windows` output on an input of shape s:
[unfoldCount H, unfoldCount W, wh*ww, C] (stride = window size, as called from
`SwinResidualCrossAttention.forward`). -/
def windowedShape (wh ww : Nat) (s : TShape3) : Nat × Nat × Nat × Nat :=
  (unfoldCount s.H wh wh, unfoldCount s.W ww ww, wh * ww, s.C)

/-- The assertion `x_context.shape == residual_context.shape` in
`SwinResidualCrossAttention.forward` (src/models/xswin.py line 131) passes
exactly when the two windowed shapes coincide. -/
def crossAttnAssertPasses (wh ww : Nat) (sx sr : TShape3) : Prop :=
  windowedShape wh ww sx = windowedShape wh ww sr

instance (wh ww : Nat) (sx sr : TShape3) :
    Decidable (crossAttnAssertPasses wh ww sx sr) := by
  unfold crossAttnAssertPasses
  infer_instance

/-
src/models/modules/geodesic_loss.py, SpecialEuclideanGeodesicLoss.forward.
A batch of transforms is a family of 3x4 real matrices, indexed by Fin n;
column 3 is the translation, columns 0-2 the rotation submatrix.
-/

/-- The rotation submatrix `transform[:, :3, :3]` of one 3x4 transform. -/
def rotPart (M : Fin 3 → Fin 4 → ℝ) : Matrix (Fin 3) (Fin 3) ℝ :=
  Matrix.of fun i j => M i j.castSucc

/-- The translation column `transform[:, :3, 3]` of one 3x4 transform. -/
def translPart (M : Fin 3 → Fin 4 → ℝ) : Fin 3 → ℝ := fun i => M i 3

/-- `translation_loss = torch.norm(p_T - t_T).mean()` (geodesic_loss.py line
30): `torch.norm` with no dim argument is the Frobenius norm of the whole
stacked [n, 3] difference, and `.mean()` of that 0-dim result is itself. -/
noncomputable def translation_loss {n : Nat} (P T : Fin n → Fin 3 → Fin 4 → ℝ) : ℝ :=
  Real.sqrt (∑ b, ∑ i, (translPart (P b) i - translPart (T b) i) ^ 2)

/-- `torch.clamp(x, lo, hi)`. -/
noncomputable def clampT (x lo hi : ℝ) : ℝ := min (max x lo) hi

/-- The clamped cosine `cos_theta` of geodesic_loss.py lines 35-40 for batch
element b: `(trace(p_R @ t_R^T) - 1) / 2`, clamped to [-0.9999, 0.9999]. -/
noncomputable def cos_theta {n : Nat} (P T : Fin n → Fin 3 → Fin 4 → ℝ)
    (b : Fin n) : ℝ :=
  clampT ((Matrix.trace (rotPart (P b) * (rotPart (T b)).transpose) - 1) / 2)
    (-0.9999) 0.9999

/-- `rotation_loss = torch.mean(theta)` with `theta = acos(cos_theta)`
(geodesic_loss.py lines 41-43): the batch mean of the geodesic angles. -/
noncomputable def rotation_loss {n : Nat} (P T : Fin n → Fin 3 → Fin 4 → ℝ) : ℝ :=
  (∑ b, Real.arccos (cos_theta P T b)) / n

/-- Modelled from the spec: "Euclidean translation error (mean norm of
translation difference)" — the mean over the batch of the per-sample
Euclidean norms of the translation differences.  Kept beside
`translation_loss` (the source's computation) for comparison. -/
noncomputable def translation_loss_spec {n : Nat}
    (P T : Fin n → Fin 3 → Fin 4 → ℝ) : ℝ :=
  (∑ b, Real.sqrt (∑ i, (translPart (P b) i - translPart (T b) i) ^ 2)) / n

/-- The 3x4 transform [I | 0] (identity rotation, zero translation). -/
def idTransform : Fin 3 → Fin 4 → ℝ :=
  fun i j => if (i : Nat) = (j : Nat) then 1 else 0

/-- A 3x4 transform whose every column is the indicator of row 0; its
translation column is (1, 0, 0). -/
def e0Transform : Fin 3 → Fin 4 → ℝ :=
  fun i _ => if (i : Nat) = 0 then 1 else 0

/-- The all-zero 3x4 transform. -/
def zeroTransform : Fin 3 → Fin 4 → ℝ := fun _ _ => 0

/-
src/models/xswin.py, XNetSwinTransformer.__init__, stochastic-depth schedule:
    total_stage_blocks = sum(depths)
    stage_block_id = 0
    encoder: for i_stage in range(len(depths)):
               for i_layer in range(depths[i_stage]):
                 sd_prob = stochastic_depth_prob * float(stage_block_id) /
                             (2*total_stage_blocks - 1)
                 ...; stage_block_id += 1
    decoder: for i_stage in range(len(depths)-1, -1, -1):   # backwards
               for i_layer in range(depths[i_stage]):
                 sd_prob = ... same formula ...; stage_block_id += 1
    (the counter is NOT reset between encoder and decoder)
Probabilities are embedded in ℚ (Python float arithmetic idealized as exact).
-/

/-- The stochastic-depth probability assigned to construction-order block k
when the total per-network block count is T:
`stochastic_depth_prob * k / (2*T - 1)`. -/
def sd_prob (p : ℚ) (T k : Nat) : ℚ := p * k / (2 * (T : ℚ) - 1)

/-- Probabilities of one stage of `depth` blocks whose first block has
construction index `start`. -/
def stageSdProbs (p : ℚ) (T start depth : Nat) : List ℚ :=
  (List.range depth).map fun i => sd_prob p T (start + i)

/-- The probabilities produced by one encoder-or-decoder pass over the given
stage depths, starting the shared block counter at k. -/
def loopSdProbs (p : ℚ) (T : Nat) : List Nat → Nat → List ℚ
  | [], _ => []
  | d :: ds, k => stageSdProbs p T k d ++ loopSdProbs p T ds (k + d)

/-- The stochastic-depth probabilities of all SwinTransformerBlockV2 modules
of XNetSwinTransformer in construction order: the encoder pass over `depths`
starting at counter 0, then the decoder pass over `depths` reversed, with the
counter continuing at `depths.sum`. -/
def xswin_sd_probs (p : ℚ) (depths : List Nat) : List ℚ :=
  loopSdProbs p depths.sum depths 0 ++
    loopSdProbs p depths.sum depths.reverse depths.sum

/-
src/models/modules/modulated/vit_block.py, ViTEncoderBlock_Modulated.forward:
    torch._assert(input.dim() == 3, ...)   -- AssertionError unless 3-dim
    x = self.mod1(x)                       -- x read before any assignment:
                                           -- UnboundLocalError, always
    ... (dead code) ...
Only the input's dimensionality is relevant, so the embedding takes it as the
argument; the body can never produce a value. -/

/-- Embedding of `ViTEncoderBlock_Modulated.forward` (vit_block.py lines
39-50). -/
def vitModulatedForward (inputDim : Nat) : Except PyErr Unit :=
  if inputDim ≠ 3 then Except.error PyErr.assertErr
  else Except.error PyErr.unboundLocal

/-
src/pose_estimation/pose_data_class.py.  Python dicts are embedded as
association lists in insertion order with unique keys (uniqueness is proved,
not assumed).  A record `{"key": key, components...}` is embedded by its key
field: organize_data's component entries (lazy image loaders / unpickled
metadata) never affect which keys exist, which is all claims C8 and C9
consult.  A directory scan is embedded as the list of (level, scene, variant)
triples parsed from the listed filenames, one per file (several files share a
triple, one per component tag).
-/

/-- A (level, scene, variant) key. -/
abbrev PKey : Type := Nat × Nat × Nat

/-- First-match association-list lookup: Python `d[k]` / `k in d`. -/
def alookup {α β : Type} [DecidableEq α] (k : α) : List (α × β) → Option β
  | [] => none
  | q :: qs => if q.1 = k then some q.2 else alookup k qs

/-- Replace the value stored at key s (Python `d[s] = f(d[s])` on a present
key); entries with other keys are untouched. -/
def updAt {α β : Type} [DecidableEq α] (s : α) (f : β → β)
    (l : List (α × β)) : List (α × β) :=
  l.map fun q => if q.1 = s then (q.1, f q.2) else q

/-- variant → record (innermost nesting level). -/
abbrev VarMap : Type := List (Nat × PKey)

/-- scene → variant map. -/
abbrev SceneMap : Type := List (Nat × VarMap)

/-- level → scene map: the type of `nested_data`. -/
abbrev LevelMap : Type := List (Nat × SceneMap)

/-- `if key not in data: data[key] = {"key": key}` (pose_data_class.py lines
99-100). -/
def insData (data : List (PKey × PKey)) (k : PKey) : List (PKey × PKey) :=
  if (alookup k data).isSome then data else data ++ [(k, k)]

/-- `if variant not in nested_data[level][scene]: ...[variant] = {"key": key}`
(pose_data_class.py lines 106-107). -/
def insVar (vm : VarMap) (v : Nat) (k : PKey) : VarMap :=
  if (alookup v vm).isSome then vm else vm ++ [(v, k)]

/-- `if scene not in nested_data[level]: ...[scene] = {}` followed by the
variant insertion inside that scene (pose_data_class.py lines 104-107). -/
def insScene (sm : SceneMap) (s v : Nat) (k : PKey) : SceneMap :=
  updAt s (fun vm => insVar vm v k)
    (if (alookup s sm).isSome then sm else sm ++ [(s, [])])

/-- `if level not in nested_data: nested_data[level] = {}` followed by the
scene and variant insertions inside that level (pose_data_class.py lines
102-107). -/
def insLevel (n : LevelMap) (k : PKey) : LevelMap :=
  updAt k.1 (fun sm => insScene sm k.2.1 k.2.2 k)
    (if (alookup k.1 n).isSome then n else n ++ [(k.1, [])])

/-- The flat and nested mappings built by `PoseData.organize_data`
(pose_data_class.py lines 80-130) from the scanned key list. -/
def organize_data (files : List PKey) :
    List (PKey × PKey) × LevelMap :=
  files.foldl (fun st k => (insData st.1 k, insLevel st.2 k)) ([], [])

/-- The number of (level, scene, variant) leaves of a nested mapping. -/
def leaves (n : LevelMap) : Nat :=
  (n.map fun q => (q.2.map fun r => r.2.length).sum).sum

/-- Whether the path (scene, variant) exists in a scene map. -/
def sceneMem (sm : SceneMap) (s v : Nat) : Bool :=
  match alookup s sm with
  | none => false
  | some vm => (alookup v vm).isSome

/-- Whether the path (level, scene, variant) exists in a nested mapping. -/
def pathMem (n : LevelMap) (k : PKey) : Bool :=
  match alookup k.1 n with
  | none => false
  | some sm => sceneMem sm k.2.1 k.2.2

/-- Sum of a measure over the values of an association list. -/
def dictWeight {β : Type} (g : β → Nat) (l : List (Nat × β)) : Nat :=
  (l.map fun q => g q.2).sum

/-- Well-formedness of a nested mapping as produced by Python dicts: keys are
unique at the level tier and in each scene map. -/
def LevelWF (n : LevelMap) : Prop :=
  (n.map Prod.fst).Nodup ∧ ∀ q ∈ n, (q.2.map Prod.fst).Nodup

/-- Python dict assignment `d[k] = b`: overwrite in place if present,
append otherwise. -/
def dictAssign {α β : Type} [DecidableEq α] (l : List (α × β)) (k : α)
    (b : β) : List (α × β) :=
  if (alookup k l).isSome then updAt k (fun _ => b) l else l ++ [(k, b)]

/-- The flat mapping of the instance returned by `PoseData.level_split`
(pose_data_class.py lines 158-177): keys of the selected level are copied
into a fresh dict, others skipped. -/
def level_split_data (data : List (PKey × PKey)) (L : Nat) :
    List (PKey × PKey) :=
  data.foldl (fun sd q => if q.1.1 = L then dictAssign sd q.1 q.2 else sd) []

/-- The index argument of `PoseData.__getitem__`: a Python int or a tuple
(embedded as the list of its entries). -/
inductive PDIndex where
  | pint (i : Int)
  | ptup (l : List Nat)

instance instDecEqVarMap : DecidableEq VarMap := inferInstance

instance instDecEqSceneMap : DecidableEq SceneMap := inferInstance

instance instDecEqLevelMap : DecidableEq LevelMap := inferInstance

/-- A value reachable by indexing into PoseData: the whole nested mapping, a
scene map, a variant map, or a record (embedded by its key). -/
inductive PDVal where
  | vmap3 (m : LevelMap)
  | vmap2 (m : SceneMap)
  | vmap1 (m : VarMap)
  | vrec (k : PKey)
  deriving DecidableEq

/-- One step `value = value[i]` of the loop in `PoseData.__getitem__`:
dict lookup at each nesting depth, KeyError when absent (indexing a record
with an integer also raises KeyError: records hold only string keys). -/
def pdChild : PDVal → Nat → Except PyErr PDVal
  | PDVal.vmap3 m, i =>
    match alookup i m with
    | some x => Except.ok (PDVal.vmap2 x)
    | none => Except.error PyErr.keyError
  | PDVal.vmap2 m, i =>
    match alookup i m with
    | some x => Except.ok (PDVal.vmap1 x)
    | none => Except.error PyErr.keyError
  | PDVal.vmap1 m, i =>
    match alookup i m with
    | some x => Except.ok (PDVal.vrec x)
    | none => Except.error PyErr.keyError
  | PDVal.vrec _, _ => Except.error PyErr.keyError

/-- Embedding of `PoseData.__getitem__` (pose_data_class.py lines 148-156):
    if isinstance(indices, int): indices = (1,)
    if len(indices) == 3: return self.data[indices]
    value = self.nested_data
    for i in indices: value = value[i]
    return value -/
def PoseData_getitem (data : List (PKey × PKey)) (nested : LevelMap)
    (indices : PDIndex) : Except PyErr PDVal :=
  let inds : List Nat :=
    match indices with
    | PDIndex.pint _ => [1]
    | PDIndex.ptup l => l
  match inds with
  | [a, b, c] =>
    match alookup ((a, b, c) : PKey) data with
    | some r => Except.ok (PDVal.vrec r)
    | none => Except.error PyErr.keyError
  | _ => inds.foldlM pdChild (PDVal.vmap3 nested)

/-- Concrete channel-count-4 tensor (counterexample input for the distributed
padding claim). -/
def X4 : NTensor3 := ⟨⟨2, 2, 4⟩, fun _ _ _ => 1⟩

/-- Concrete channel-count-6 tensor (witness input for the padding paths). -/
def X6 : NTensor3 := ⟨⟨1, 1, 6⟩, fun _ _ _ => 2⟩

/-
Theorems.
-/

/-- Helper: a positive multiple of the window size unfolds (stride = window)
into exactly `H / wh` windows. -/
theorem unfoldCount_of_dvd (wh H : Nat) (hwh : 0 < wh) (hH : 0 < H)
    (hdvd : wh ∣ H) : unfoldCount H wh wh = H / wh := by
  obtain ⟨m, rfl⟩ := hdvd
  match m, hH with
  | m + 1, _ =>
    unfold unfoldCount
    have h1 : wh * (m + 1) - wh = wh * m := by
      rw [Nat.mul_add, Nat.mul_one, Nat.add_sub_cancel]
    rw [h1, Nat.mul_div_cancel_left _ hwh, Nat.mul_div_cancel_left _ hwh]

/-- C3: extracting windows with stride equal to window size and merging them
back with the reshape/permute/reshape of SwinResidualCrossAttention.forward
reconstructs the original feature map at every in-range position. -/
theorem extract_merge_id {α : Type} (x : Nat → Nat → Nat → α)
    (H W wh ww : Nat) (hwh : 0 < wh) (hww : 0 < ww)
    (hH : wh ∣ H) (hW : ww ∣ W) :
    ∀ h w c, h < H → w < W →
      merge_windows wh ww (extract_windows x wh ww wh ww) h w c = x h w c := by
  intro h w c _ _
  show x (h / wh * wh + ((h % wh) * ww + w % ww) / ww)
      (w / ww * ww + ((h % wh) * ww + w % ww) % ww) c = x h w c
  have e1 : ((h % wh) * ww + w % ww) / ww = h % wh := by
    rw [mul_comm, Nat.mul_add_div hww, Nat.div_eq_of_lt (Nat.mod_lt w hww),
      Nat.add_zero]
  have e2 : ((h % wh) * ww + w % ww) % ww = w % ww := by
    rw [add_comm, Nat.add_mul_mod_self_right, Nat.mod_mod_of_dvd _ dvd_rfl]
  have e3 : h / wh * wh + h % wh = h := by
    rw [mul_comm]; exact Nat.div_add_mod h wh
  have e4 : w / ww * ww + w % ww = w := by
    rw [mul_comm]; exact Nat.div_add_mod w ww
  rw [e1, e2, e3, e4]

/-- C3 witness: a concrete 4x6x1-indexed map with 2x3 windows is rebuilt
exactly at position (3, 4, 5). -/
theorem extract_merge_id_witness :
    merge_windows 2 3
        (extract_windows (fun h w c => 100 * h + 10 * w + c) 2 3 2 3) 3 4 5
      = 100 * 3 + 10 * 4 + 5 :=
  extract_merge_id (fun h w c => 100 * h + 10 * w + c) 4 6 2 3
    (by decide) (by decide) (by decide) (by decide) 3 4 5 (by decide) (by decide)

/-- C4: on input channel count divisible by 4 the patch-expanding
rearrangement yields shape [2H, 2W, C/4] (spatial doubled, channels
quartered) and the total element count is preserved. -/
theorem patch_expanding_shape (s : TShape3) (h4 : 4 ∣ s.C) :
    patch_expanding_pad_shape s = some ⟨2 * s.H, 2 * s.W, s.C / 4⟩ ∧
    (2 * s.H) * ((2 * s.W) * (s.C / 4)) = s.H * (s.W * s.C) := by
  obtain ⟨H, W, C⟩ := s
  obtain ⟨m, rfl⟩ := h4
  have hdiv : 4 * m / 4 = m := Nat.mul_div_cancel_left m (by norm_num)
  constructor
  · unfold patch_expanding_pad_shape pad_expansion_c
    simp only [hdiv, Nat.mul_mod_right]
    norm_num
  · simp only [hdiv]
    ring

/-- C4 witness: input shape [3, 5, 8] becomes [6, 10, 2] with 120 elements
before and after. -/
theorem patch_expanding_shape_witness :
    patch_expanding_pad_shape ⟨3, 5, 8⟩ = some ⟨6, 10, 2⟩ ∧
      6 * (10 * 2) = 3 * (5 * 8) :=
  patch_expanding_shape ⟨3, 5, 8⟩ (by decide)

/-- C5 counterexample: feature maps of heights 9 and 8 (window 4, stride 4)
have different spatial sizes, yet the truncating unfold gives both the
windowed shape (2, 2, 16, 16), so the shape assertion in
SwinResidualCrossAttention.forward passes instead of failing. -/
theorem crossAttn_cx :
    (⟨9, 8, 16⟩ : TShape3).H ≠ (⟨8, 8, 16⟩ : TShape3).H ∧
      crossAttnAssertPasses 4 4 ⟨9, 8, 16⟩ ⟨8, 8, 16⟩ :=
  ⟨by decide, by decide⟩

/-- C5 (amended): when both heights are positive multiples of the window
height, any height mismatch makes the windowed shapes differ, so the
assertion in SwinResidualCrossAttention.forward fails. -/
theorem crossAttn_mismatch (wh ww : Nat) (s1 s2 : TShape3)
    (hwh : 0 < wh) (h1 : wh ∣ s1.H) (h2 : wh ∣ s2.H)
    (hp1 : 0 < s1.H) (hp2 : 0 < s2.H) (hne : s1.H ≠ s2.H) :
    ¬ crossAttnAssertPasses wh ww s1 s2 := by
  intro hc
  have hfst : unfoldCount s1.H wh wh = unfoldCount s2.H wh wh :=
    congrArg Prod.fst hc
  rw [unfoldCount_of_dvd wh s1.H hwh hp1 h1,
    unfoldCount_of_dvd wh s2.H hwh hp2 h2] at hfst
  exact hne (by rw [← Nat.mul_div_cancel' h1, ← Nat.mul_div_cancel' h2, hfst])

/-- C5 witness: heights 8 and 12 with window height 4 fail the assertion. -/
theorem crossAttn_mismatch_witness :
    ¬ crossAttnAssertPasses 4 4 ⟨8, 4, 16⟩ ⟨12, 4, 16⟩ :=
  crossAttn_mismatch 4 4 ⟨8, 4, 16⟩ ⟨12, 4, 16⟩
    (by decide) (by decide) (by decide) (by decide) (by decide) (by decide)

/-- C6 counterexample: with channel count already a multiple of 4 the
distributed path returns the input unchanged instead of raising
NotImplementedError. -/
theorem pad_expansion_cx : pad_expansion X4 true = Except.ok X4 := rfl

/-- C6 (amended): requesting the distributed padding path raises
NotImplementedError exactly when padding is actually needed (C not a
multiple of 4); when 4 divides C any call returns the input unchanged, and
the non-distributed path zero-pads the trailing channels up to the next
multiple of 4. -/
theorem pad_expansion_spec (x : NTensor3) :
    (4 ∣ x.shape.C → ∀ d, pad_expansion x d = Except.ok x) ∧
    (¬ 4 ∣ x.shape.C →
      pad_expansion x true = Except.error PyErr.notImplemented ∧
      pad_expansion x false =
        Except.ok ⟨⟨x.shape.H, x.shape.W, x.shape.C + (4 - x.shape.C % 4) % 4⟩,
          fun h w c => if c < x.shape.C then x.val h w c else 0⟩) := by
  constructor
  · intro h4 d
    have h0 : (4 - x.shape.C % 4) % 4 = 0 := by omega
    unfold pad_expansion
    simp [h0]
  · intro h4
    have h0 : ¬ (4 - x.shape.C % 4) % 4 = 0 := by omega
    refine ⟨?_, ?_⟩ <;> (unfold pad_expansion; simp [h0])

/-- C6 witness: C = 4 returns unchanged on the non-distributed path; C = 6
with distributed=True raises NotImplementedError. -/
theorem pad_expansion_spec_witness :
    pad_expansion X4 false = Except.ok X4 ∧
      pad_expansion X6 true = Except.error PyErr.notImplemented :=
  ⟨(pad_expansion_spec X4).1 (by decide) false,
    ((pad_expansion_spec X6).2 (by decide)).1⟩

/-- C10 counterexample: a 2-dimensional input fails the dimension assertion
first, so the raised error is AssertionError, not UnboundLocalError. -/
theorem vitModulated_cx :
    vitModulatedForward 2 = Except.error PyErr.assertErr ∧
      PyErr.assertErr ≠ PyErr.unboundLocal :=
  ⟨rfl, by decide⟩

/-- C10 (amended): every input passing the 3-dimensionality assertion makes
ViTEncoderBlock_Modulated.forward raise UnboundLocalError (x is read before
any assignment), and no input ever returns a result. -/
theorem vitModulated_never_returns (d : Nat) :
    (d = 3 → vitModulatedForward d = Except.error PyErr.unboundLocal) ∧
    ∀ u, vitModulatedForward d ≠ Except.ok u := by
  constructor
  · intro h; subst h; rfl
  · intro u
    unfold vitModulatedForward
    split <;> simp

/-- C10 witness: a 3-dimensional input raises UnboundLocalError and does not
return. -/
theorem vitModulated_witness :
    vitModulatedForward 3 = Except.error PyErr.unboundLocal ∧
      vitModulatedForward 3 ≠ Except.ok () :=
  ⟨(vitModulated_never_returns 3).1 rfl, (vitModulated_never_returns 3).2 ()⟩

/-- Helper: the rotation part of the [I | 0] transform is the identity
matrix. -/
theorem rotPart_idTransform :
    rotPart idTransform = (1 : Matrix (Fin 3) (Fin 3) ℝ) := by
  ext i j
  simp [rotPart, idTransform, Matrix.one_apply, Fin.ext_iff]

/-- C1 counterexample: for the batch consisting of one identity transform,
predicted = target, the rotation term of
SpecialEuclideanGeodesicLoss.forward is arccos(0.9999), which is nonzero. -/
theorem geodesic_self_rotation_cx :
    rotation_loss (fun _ : Fin 1 => idTransform) (fun _ => idTransform) ≠ 0 := by
  have hc : cos_theta (fun _ : Fin 1 => idTransform) (fun _ => idTransform) 0
      = 0.9999 := by
    unfold cos_theta clampT
    rw [rotPart_idTransform, Matrix.transpose_one, mul_one, Matrix.trace_one]
    norm_num [Fintype.card_fin]
  unfold rotation_loss
  rw [Fin.sum_univ_one, hc, Nat.cast_one, div_one]
  exact ne_of_gt (Real.arccos_pos.mpr (by norm_num))

/-- C1 (amended): for every nonempty batch with predicted = target and each
rotation part orthogonal (R·Rᵀ = I), the translation loss is 0 and the
rotation loss is arccos(0.9999) — a small positive constant, not 0, because
cos_theta is clamped to [-0.9999, 0.9999] before acos. -/
theorem geodesic_loss_self (n : Nat) (P : Fin n → Fin 3 → Fin 4 → ℝ)
    (hn : 0 < n)
    (horth : ∀ b, rotPart (P b) * (rotPart (P b)).transpose = 1) :
    translation_loss P P = 0 ∧ rotation_loss P P = Real.arccos 0.9999 := by
  constructor
  · unfold translation_loss
    simp
  · unfold rotation_loss
    have hc : ∀ b, cos_theta P P b = 0.9999 := by
      intro b
      unfold cos_theta clampT
      rw [horth b, Matrix.trace_one]
      norm_num [Fintype.card_fin]
    simp only [hc]
    rw [Finset.sum_const, Finset.card_univ, Fintype.card_fin, nsmul_eq_mul]
    exact mul_div_cancel_left₀ _ (Nat.cast_ne_zero.mpr hn.ne')

/-- C1 witness: the batch of one identity transform satisfies the
orthogonality hypothesis and realizes the amended conclusion. -/
theorem geodesic_loss_self_witness :
    translation_loss (fun _ : Fin 1 => idTransform) (fun _ => idTransform) = 0 ∧
      rotation_loss (fun _ : Fin 1 => idTransform) (fun _ => idTransform)
        = Real.arccos 0.9999 :=
  geodesic_loss_self 1 (fun _ => idTransform) (by norm_num)
    (fun _ => by rw [rotPart_idTransform, Matrix.transpose_one, mul_one])

/-- C2 counterexample: for a batch of two transforms each with translation
difference (1,0,0), the code's translation term (Frobenius norm of the whole
stacked difference, sqrt 2) differs from the spec's mean per-sample norm
(1). -/
theorem translation_norm_cx :
    translation_loss (fun _ : Fin 2 => e0Transform) (fun _ => zeroTransform)
      ≠ translation_loss_spec (fun _ : Fin 2 => e0Transform)
          (fun _ => zeroTransform) := by
  have hinner :
      (∑ i : Fin 3,
        (translPart e0Transform i - translPart zeroTransform i) ^ 2) = 1 := by
    unfold translPart e0Transform zeroTransform
    rw [Fin.sum_univ_three]
    norm_num
  unfold translation_loss translation_loss_spec
  simp only [hinner, Fin.sum_univ_two, Real.sqrt_one]
  rw [show (1:ℝ) + 1 = 2 by norm_num]
  intro h
  have h2 : Real.sqrt 2 ^ 2 = 2 := Real.sq_sqrt (by norm_num)
  rw [h] at h2
  norm_num at h2

/-- C2 (amended): the translation term is the Frobenius norm of the whole
stacked difference; it agrees with the spec's batch mean of per-sample norms
in the batch-size-one case. -/
theorem translation_norm_batch_one (P T : Fin 1 → Fin 3 → Fin 4 → ℝ) :
    translation_loss P T = translation_loss_spec P T := by
  unfold translation_loss translation_loss_spec
  rw [Fin.sum_univ_one, Fin.sum_univ_one, Nat.cast_one, div_one]

/-- Helper: one constructor pass over the stage depths lists the block
probabilities of the consecutive counter values. -/
theorem loopSdProbs_eq (p : ℚ) (T : Nat) :
    ∀ (ds : List Nat) (k : Nat),
      loopSdProbs p T ds k
        = (List.range ds.sum).map (fun i => sd_prob p T (k + i)) := by
  intro ds
  induction ds with
  | nil => intro k; simp [loopSdProbs]
  | cons d ds ih =>
    intro k
    rw [loopSdProbs, ih (k + d), List.sum_cons, List.range_add,
      List.map_append, List.map_map]
    congr 1
    all_goals
      apply List.map_congr_left
      intro i _
      simp [Function.comp_apply, Nat.add_assoc]

/-- Helper: the full construction-order probability list is the linear
schedule over indices 0, ..., 2*T - 1. -/
theorem xswin_sd_probs_eq (p : ℚ) (depths : List Nat) :
    xswin_sd_probs p depths
      = (List.range (2 * depths.sum)).map (fun k => sd_prob p depths.sum k) := by
  unfold xswin_sd_probs
  rw [loopSdProbs_eq, loopSdProbs_eq, List.sum_reverse, two_mul,
    List.range_add, List.map_append, List.map_map]
  congr 1
  all_goals
    apply List.map_congr_left
    intro i _
    simp [Function.comp_apply, Nat.zero_add]

/-- C7: the stochastic-depth probability of the k-th SwinTransformerBlockV2
in construction order (encoder then decoder, one shared counter) is
stochastic_depth_prob * k / (2*total_stage_blocks - 1); the schedule starts
at 0, is monotone for a nonnegative probability, and reaches the configured
maximum at the last decoder block (index 2*total_stage_blocks - 1). -/
theorem sd_schedule (p : ℚ) (depths : List Nat)
    (hT : 0 < depths.sum) (hp : 0 ≤ p) :
    xswin_sd_probs p depths
        = (List.range (2 * depths.sum)).map (fun k => sd_prob p depths.sum k) ∧
      sd_prob p depths.sum 0 = 0 ∧
      (∀ i j : Nat, i ≤ j → sd_prob p depths.sum i ≤ sd_prob p depths.sum j) ∧
      sd_prob p depths.sum (2 * depths.sum - 1) = p := by
  have hT1 : (1:ℚ) ≤ (depths.sum : ℚ) := by exact_mod_cast hT
  have hd : (0:ℚ) < 2 * (depths.sum : ℚ) - 1 := by linarith
  refine ⟨xswin_sd_probs_eq p depths, ?_, ?_, ?_⟩
  · simp [sd_prob]
  · intro i j hij
    unfold sd_prob
    have hcast : (i:ℚ) ≤ (j:ℚ) := by exact_mod_cast hij
    gcongr
  · unfold sd_prob
    have h1 : ((2 * depths.sum - 1 : Nat) : ℚ) = 2 * (depths.sum : ℚ) - 1 := by
      have h2T : 1 ≤ 2 * depths.sum := by omega
      push_cast [h2T]
      ring
    rw [h1, mul_div_assoc, div_self (ne_of_gt hd), mul_one]

/-- C7 witness: with p = 1 and depths [1] the schedule is the linear map over
indices 0 and 1, starting at 0, monotone, ending at 1. -/
theorem sd_schedule_witness :
    xswin_sd_probs 1 [1]
        = (List.range 2).map (fun k => sd_prob 1 1 k) ∧
      sd_prob 1 1 0 = 0 ∧
      (∀ i j : Nat, i ≤ j → sd_prob 1 1 i ≤ sd_prob 1 1 j) ∧
      sd_prob 1 1 (2 * 1 - 1) = 1 :=
  sd_schedule 1 [1] (by decide) (by norm_num)

/-- Lookup ignores a suffix while the key is unresolved only when the prefix
misses it. -/
theorem alookup_append_of_none {α β : Type} [DecidableEq α] (k : α)
    (l l' : List (α × β)) (h : alookup k l = none) :
    alookup k (l ++ l') = alookup k l' := by
  induction l with
  | nil => rfl
  | cons q t ih =>
    simp only [alookup] at h
    by_cases hq : q.1 = k
    · rw [if_pos hq] at h; exact absurd h (by simp)
    · rw [if_neg hq] at h
      rw [List.cons_append]
      simp only [alookup, if_neg hq]
      exact ih h

/-- Lookup is decided by a prefix that already contains the key. -/
theorem alookup_append_of_isSome {α β : Type} [DecidableEq α] (k : α)
    (l l' : List (α × β)) (h : (alookup k l).isSome) :
    alookup k (l ++ l') = alookup k l := by
  induction l with
  | nil => simp [alookup] at h
  | cons q t ih =>
    simp only [alookup] at h
    rw [List.cons_append]
    simp only [alookup]
    by_cases hq : q.1 = k
    · rw [if_pos hq, if_pos hq]
    · rw [if_neg hq] at h
      rw [if_neg hq, if_neg hq]
      exact ih h

/-- Lookup in a one-entry list with a different key. -/
theorem alookup_single_ne {α β : Type} [DecidableEq α] (k a : α) (b : β)
    (h : k ≠ a) : alookup k [(a, b)] = none := by
  simp only [alookup, if_neg (fun hc : a = k => h hc.symm)]

/-- Appending one entry with a different key does not change a lookup. -/
theorem alookup_append_single_ne {α β : Type} [DecidableEq α] (k a : α)
    (b : β) (l : List (α × β)) (h : k ≠ a) :
    alookup k (l ++ [(a, b)]) = alookup k l := by
  induction l with
  | nil =>
    simp only [List.nil_append]
    rw [alookup_single_ne _ _ _ h]
    rfl
  | cons q t ih =>
    rw [List.cons_append]
    simp only [alookup]
    by_cases hq : q.1 = k
    · rw [if_pos hq, if_pos hq]
    · rw [if_neg hq, if_neg hq]
      exact ih

/-- A successful lookup produces an actual entry of the list. -/
theorem alookup_mem {α β : Type} [DecidableEq α] (k : α) (b : β)
    (l : List (α × β)) (h : alookup k l = some b) : (k, b) ∈ l := by
  induction l with
  | nil => simp [alookup] at h
  | cons q t ih =>
    simp only [alookup] at h
    by_cases hq : q.1 = k
    · rw [if_pos hq] at h
      have hb : b = q.2 := (Option.some.inj h).symm
      have hkb : (k, b) = q := by rw [hb, ← hq]
      rw [hkb]
      exact List.mem_cons_self _ _
    · rw [if_neg hq] at h
      exact List.mem_cons_of_mem _ (ih h)

/-- A failed lookup means the key does not occur. -/
theorem not_mem_of_alookup_none {α β : Type} [DecidableEq α] (k : α)
    (l : List (α × β)) (h : alookup k l = none) : k ∉ l.map Prod.fst := by
  induction l with
  | nil => simp
  | cons q t ih =>
    simp only [alookup] at h
    by_cases hq : q.1 = k
    · rw [if_pos hq] at h; exact absurd h (by simp)
    · rw [if_neg hq] at h
      simp only [List.map_cons, List.mem_cons]
      rintro (rfl | hmem)
      · exact hq rfl
      · exact ih h hmem

/-- updAt does not change the key sequence. -/
theorem updAt_keys {α β : Type} [DecidableEq α] (s : α) (f : β → β)
    (l : List (α × β)) : (updAt s f l).map Prod.fst = l.map Prod.fst := by
  unfold updAt
  rw [List.map_map]
  apply List.map_congr_left
  intro q _
  by_cases h : q.1 = s <;> simp [h]

/-- Looking up the updated key returns the mapped value. -/
theorem alookup_updAt_self {α β : Type} [DecidableEq α] (s : α) (f : β → β)
    (l : List (α × β)) : alookup s (updAt s f l) = (alookup s l).map f := by
  induction l with
  | nil => rfl
  | cons q t ih =>
    by_cases h : q.1 = s
    · simp [updAt, alookup, h]
    · simp only [updAt, List.map_cons, if_neg h, alookup]
      exact ih

/-- Looking up any other key is unaffected by updAt. -/
theorem alookup_updAt_ne {α β : Type} [DecidableEq α] (k s : α) (f : β → β)
    (l : List (α × β)) (h : k ≠ s) :
    alookup k (updAt s f l) = alookup k l := by
  induction l with
  | nil => rfl
  | cons q t ih =>
    by_cases hq : q.1 = s
    · have hk : ¬ q.1 = k := fun hc => h (hc ▸ hq)
      simp only [updAt, List.map_cons, if_pos hq, alookup]
      rw [if_neg hk, if_neg hk]
      exact ih
    · simp only [updAt, List.map_cons, if_neg hq, alookup]
      by_cases hk : q.1 = k
      · rw [if_pos hk, if_pos hk]
      · rw [if_neg hk, if_neg hk]
        exact ih

/-- updAt at an absent key is the identity. -/
theorem updAt_of_not_mem {α β : Type} [DecidableEq α] (s : α) (f : β → β)
    (l : List (α × β)) (h : s ∉ l.map Prod.fst) : updAt s f l = l := by
  induction l with
  | nil => rfl
  | cons q t ih =>
    simp only [List.map_cons, List.mem_cons] at h
    push_neg at h
    simp only [updAt, List.map_cons, if_neg (fun hc : q.1 = s => h.1 hc.symm)]
    rw [show List.map (fun q => if q.1 = s then (q.1, f q.2) else q) t
        = updAt s f t from rfl, ih h.2]

/-- dictWeight distributes over append. -/
theorem dictWeight_append {β : Type} (g : β → Nat) (l l' : List (Nat × β)) :
    dictWeight g (l ++ l') = dictWeight g l + dictWeight g l' := by
  simp [dictWeight]

/-- Updating a present key (with unique keys) trades its old measure for the
new one in the total. -/
theorem dictWeight_updAt {β : Type} (g : β → Nat) (f : β → β) (s : Nat)
    (l : List (Nat × β)) (b : β) (hnd : (l.map Prod.fst).Nodup)
    (hl : alookup s l = some b) :
    dictWeight g (updAt s f l) + g b = dictWeight g l + g (f b) := by
  induction l with
  | nil => simp [alookup] at hl
  | cons q t ih =>
    simp only [List.map_cons, List.nodup_cons] at hnd
    simp only [alookup] at hl
    by_cases hq : q.1 = s
    · rw [if_pos hq] at hl
      have hb : b = q.2 := by cases hl; rfl
      subst hb
      have htup : updAt s f t = t := by
        apply updAt_of_not_mem
        intro hc
        exact hnd.1 (hq ▸ hc)
      simp only [updAt, List.map_cons, if_pos hq]
      rw [show List.map (fun q => if q.1 = s then (q.1, f q.2) else q) t
          = updAt s f t from rfl, htup]
      simp [dictWeight]
      omega
    · rw [if_neg hq] at hl
      have := ih hnd.2 hl
      simp only [updAt, List.map_cons, if_neg hq]
      rw [show List.map (fun q => if q.1 = s then (q.1, f q.2) else q) t
          = updAt s f t from rfl]
      simp only [dictWeight, List.map_cons, List.sum_cons] at this ⊢
      omega

/-- insVar is the identity on a variant map already holding the variant. -/
theorem insVar_present (vm : VarMap) (v : Nat) (k : PKey)
    (h : (alookup v vm).isSome) : insVar vm v k = vm := by
  unfold insVar
  rw [if_pos h]

/-- insVar appends the new entry when the variant is absent. -/
theorem insVar_absent (vm : VarMap) (v : Nat) (k : PKey)
    (h : alookup v vm = none) : insVar vm v k = vm ++ [(v, k)] := by
  unfold insVar
  rw [if_neg (by simp [h])]

/-- After insVar the variant is present. -/
theorem alookup_insVar_self (vm : VarMap) (v : Nat) (k : PKey) :
    (alookup v (insVar vm v k)).isSome = true := by
  unfold insVar
  cases h : alookup v vm with
  | some b => simp [h]
  | none =>
    rw [if_neg (by simp [h]), alookup_append_of_none _ _ _ h]
    simp [alookup]

/-- insVar does not disturb other variants. -/
theorem alookup_insVar_ne (vm : VarMap) (v : Nat) (k : PKey) (v' : Nat)
    (h : v' ≠ v) : alookup v' (insVar vm v k) = alookup v' vm := by
  unfold insVar
  by_cases hs : (alookup v vm).isSome
  · rw [if_pos hs]
  · rw [if_neg hs, alookup_append_single_ne _ _ _ _ h]

/-- insData is the identity when the key is already present. -/
theorem insData_present (data : List (PKey × PKey)) (k : PKey)
    (h : (alookup k data).isSome) : insData data k = data := by
  unfold insData
  rw [if_pos h]

/-- insData appends one record when the key is absent. -/
theorem length_insData_absent (data : List (PKey × PKey)) (k : PKey)
    (h : alookup k data = none) :
    (insData data k).length = data.length + 1 := by
  unfold insData
  rw [if_neg (by simp [h])]
  simp

/-- After insData the key is present. -/
theorem alookup_insData_self (data : List (PKey × PKey)) (k : PKey) :
    (alookup k (insData data k)).isSome = true := by
  unfold insData
  cases h : alookup k data with
  | some b => simp [h]
  | none =>
    rw [if_neg (by simp [h]), alookup_append_of_none _ _ _ h]
    simp [alookup]

/-- insData does not disturb other keys. -/
theorem alookup_insData_ne (data : List (PKey × PKey)) (k k' : PKey)
    (h : k' ≠ k) : alookup k' (insData data k) = alookup k' data := by
  unfold insData
  by_cases hs : (alookup k data).isSome
  · rw [if_pos hs]
  · rw [if_neg hs, alookup_append_single_ne _ _ _ _ h]

/-- insScene preserves uniqueness of scene keys. -/
theorem sceneKeys_insScene_nodup (sm : SceneMap) (s v : Nat) (k : PKey)
    (h : (sm.map Prod.fst).Nodup) :
    ((insScene sm s v k).map Prod.fst).Nodup := by
  unfold insScene
  rw [updAt_keys]
  by_cases hs : (alookup s sm).isSome
  · rw [if_pos hs]; exact h
  · rw [if_neg hs, List.map_append]
    have hnm : s ∉ sm.map Prod.fst :=
      not_mem_of_alookup_none _ _ (Option.not_isSome_iff_eq_none.mp hs)
    simp [List.nodup_append, h, hnm, List.disjoint_singleton]

/-- insScene does not change the scene-map weight when the (scene, variant)
path is already present (scene keys assumed unique). -/
theorem dictWeight_insScene_present (sm : SceneMap) (s v : Nat) (k : PKey)
    (hnd : (sm.map Prod.fst).Nodup) (hmem : sceneMem sm s v = true) :
    dictWeight List.length (insScene sm s v k)
      = dictWeight List.length sm := by
  unfold insScene
  cases h : alookup s sm with
  | none => simp [sceneMem, h] at hmem
  | some vm =>
    rw [if_pos (by simp [h])]
    have hv : (alookup v vm).isSome := by simpa [sceneMem, h] using hmem
    have hupd := dictWeight_updAt List.length (fun vm => insVar vm v k)
      s sm vm hnd h
    simp only [] at hupd
    rw [insVar_present _ _ _ hv] at hupd
    exact Nat.add_right_cancel hupd

/-- insScene raises the scene-map weight by one when the (scene, variant)
path is new (scene keys assumed unique). -/
theorem dictWeight_insScene_absent (sm : SceneMap) (s v : Nat) (k : PKey)
    (hnd : (sm.map Prod.fst).Nodup) (hmem : sceneMem sm s v = false) :
    dictWeight List.length (insScene sm s v k)
      = dictWeight List.length sm + 1 := by
  unfold insScene
  cases h : alookup s sm with
  | some vm =>
    rw [if_pos (by simp [h])]
    have hv : alookup v vm = none := by
      cases hv : alookup v vm with
      | none => rfl
      | some b => simp [sceneMem, h, hv] at hmem
    have hupd := dictWeight_updAt List.length (fun vm => insVar vm v k)
      s sm vm hnd h
    simp only [] at hupd
    rw [insVar_absent _ _ _ hv] at hupd
    simp only [List.length_append, List.length_singleton] at hupd
    have hupd' :
        dictWeight List.length (updAt s (fun vm => insVar vm v k) sm)
            + List.length vm
          = dictWeight List.length sm + 1 + List.length vm := by
      rw [hupd]; ring
    exact Nat.add_right_cancel hupd'
  | none =>
    rw [if_neg (by simp [h])]
    have h2 : alookup s (sm ++ [(s, ([] : VarMap))]) = some [] := by
      rw [alookup_append_of_none _ _ _ h]
      simp [alookup]
    have hnm : s ∉ sm.map Prod.fst := not_mem_of_alookup_none _ _ h
    have hnd2 : ((sm ++ [(s, ([] : VarMap))]).map Prod.fst).Nodup := by
      rw [List.map_append]
      simp [List.nodup_append, hnd, hnm, List.disjoint_singleton]
    have hupd := dictWeight_updAt List.length (fun vm => insVar vm v k)
      s (sm ++ [(s, [])]) [] hnd2 h2
    rw [dictWeight_append] at hupd
    simp only [] at hupd
    have e1 : dictWeight List.length [((s : Nat), ([] : VarMap))] = 0 := rfl
    have e2 : ([] : VarMap).length = 0 := rfl
    have e3 : insVar ([] : VarMap) v k = [(v, k)] := rfl
    rw [e1, e2, e3] at hupd
    simp only [List.length_singleton] at hupd
    simpa using hupd

/-- After insScene the (scene, variant) path is present. -/
theorem sceneMem_insScene_self (sm : SceneMap) (s v : Nat) (k : PKey) :
    sceneMem (insScene sm s v k) s v = true := by
  unfold insScene sceneMem
  rw [alookup_updAt_self]
  cases h : alookup s sm with
  | some vm =>
    rw [if_pos (by simp [h]), h]
    simp [alookup_insVar_self]
  | none =>
    rw [if_neg (by simp [h]), alookup_append_of_none _ _ _ h]
    simp [alookup, alookup_insVar_self]

/-- insScene leaves every other (scene, variant) path unchanged. -/
theorem sceneMem_insScene_ne (sm : SceneMap) (s v : Nat) (k : PKey)
    (s' v' : Nat) (hne : ¬(s' = s ∧ v' = v)) :
    sceneMem (insScene sm s v k) s' v' = sceneMem sm s' v' := by
  by_cases hs : s' = s
  · subst hs
    have hv : v' ≠ v := fun hv => hne ⟨rfl, hv⟩
    unfold insScene sceneMem
    rw [alookup_updAt_self]
    cases h : alookup s' sm with
    | some vm =>
      rw [if_pos (by simp [h]), h]
      simp [alookup_insVar_ne _ _ _ _ hv]
    | none =>
      rw [if_neg (by simp [h]), alookup_append_of_none _ _ _ h]
      simp [alookup, alookup_insVar_ne _ _ _ _ hv]
      exact fun hc => hv hc.symm
  · unfold insScene sceneMem
    rw [alookup_updAt_ne _ _ _ _ hs]
    by_cases hss : (alookup s sm).isSome
    · rw [if_pos hss]
    · rw [if_neg hss, alookup_append_single_ne _ _ _ _ hs]

/-- leaves is the nested dictWeight. -/
theorem leaves_eq_dictWeight (n : LevelMap) :
    leaves n = dictWeight (fun sm => dictWeight List.length sm) n := rfl

/-- insLevel does not change the leaf count when the path is already
present. -/
theorem leaves_insLevel_present (n : LevelMap) (k : PKey) (hwf : LevelWF n)
    (hmem : pathMem n k = true) : leaves (insLevel n k) = leaves n := by
  obtain ⟨l, s, v⟩ := k
  unfold insLevel
  dsimp only
  cases h : alookup l n with
  | none => simp [pathMem, h] at hmem
  | some sm =>
    rw [if_pos (by simp [h])]
    have hsm : (l, sm) ∈ n := alookup_mem _ _ _ h
    have hnd2 : (sm.map Prod.fst).Nodup := hwf.2 _ hsm
    have hscene : sceneMem sm s v = true := by simpa [pathMem, h] using hmem
    have hupd := dictWeight_updAt (fun sm => dictWeight List.length sm)
      (fun sm => insScene sm s v (l, s, v)) l n sm hwf.1 h
    simp only [] at hupd
    rw [dictWeight_insScene_present _ _ _ _ hnd2 hscene] at hupd
    rw [leaves_eq_dictWeight, leaves_eq_dictWeight]
    exact Nat.add_right_cancel hupd

/-- insLevel raises the leaf count by one when the path is new. -/
theorem leaves_insLevel_absent (n : LevelMap) (k : PKey) (hwf : LevelWF n)
    (hmem : pathMem n k = false) : leaves (insLevel n k) = leaves n + 1 := by
  obtain ⟨l, s, v⟩ := k
  unfold insLevel
  dsimp only
  cases h : alookup l n with
  | some sm =>
    rw [if_pos (by simp [h])]
    have hsm : (l, sm) ∈ n := alookup_mem _ _ _ h
    have hnd2 : (sm.map Prod.fst).Nodup := hwf.2 _ hsm
    have hscene : sceneMem sm s v = false := by simpa [pathMem, h] using hmem
    have hupd := dictWeight_updAt (fun sm => dictWeight List.length sm)
      (fun sm => insScene sm s v (l, s, v)) l n sm hwf.1 h
    simp only [] at hupd
    rw [dictWeight_insScene_absent _ _ _ _ hnd2 hscene] at hupd
    rw [leaves_eq_dictWeight, leaves_eq_dictWeight]
    have hupd' : dictWeight (fun sm => dictWeight List.length sm)
          (updAt l (fun sm => insScene sm s v (l, s, v)) n)
          + dictWeight List.length sm
        = dictWeight (fun sm => dictWeight List.length sm) n + 1
          + dictWeight List.length sm := by
      rw [hupd]; ring
    exact Nat.add_right_cancel hupd'
  | none =>
    rw [if_neg (by simp [h])]
    have h2 : alookup l (n ++ [(l, ([] : SceneMap))]) = some [] := by
      rw [alookup_append_of_none _ _ _ h]
      simp [alookup]
    have hnm : l ∉ n.map Prod.fst := not_mem_of_alookup_none _ _ h
    have hnd2 : ((n ++ [(l, ([] : SceneMap))]).map Prod.fst).Nodup := by
      rw [List.map_append]
      simp [List.nodup_append, hwf.1, hnm, List.disjoint_singleton]
    have hupd := dictWeight_updAt (fun sm => dictWeight List.length sm)
      (fun sm => insScene sm s v (l, s, v)) l (n ++ [(l, [])]) [] hnd2 h2
    rw [dictWeight_append] at hupd
    simp only [] at hupd
    have hscene : sceneMem ([] : SceneMap) s v = false := rfl
    rw [dictWeight_insScene_absent _ _ _ _ (by simp) hscene] at hupd
    have e1 : dictWeight (fun sm => dictWeight List.length sm)
        [((l : Nat), ([] : SceneMap))] = 0 := rfl
    have e2 : dictWeight List.length ([] : SceneMap) = 0 := rfl
    rw [e1, e2] at hupd
    rw [leaves_eq_dictWeight, leaves_eq_dictWeight]
    simpa using hupd

/-- After insLevel the inserted path is present. -/
theorem pathMem_insLevel_self (n : LevelMap) (k : PKey) :
    pathMem (insLevel n k) k = true := by
  obtain ⟨l, s, v⟩ := k
  unfold insLevel pathMem
  dsimp only
  rw [alookup_updAt_self]
  cases h : alookup l n with
  | some sm =>
    rw [if_pos (by simp [h]), h]
    simp [sceneMem_insScene_self]
  | none =>
    rw [if_neg (by simp [h]), alookup_append_of_none _ _ _ h]
    simp [alookup, sceneMem_insScene_self]

/-- insLevel leaves every other path unchanged. -/
theorem pathMem_insLevel_ne (n : LevelMap) (k k' : PKey) (hne : k' ≠ k) :
    pathMem (insLevel n k) k' = pathMem n k' := by
  obtain ⟨l, s, v⟩ := k
  obtain ⟨l', s', v'⟩ := k'
  unfold insLevel pathMem
  dsimp only
  by_cases hl : l' = l
  · subst hl
    have hsv : ¬(s' = s ∧ v' = v) := by
      intro hc
      exact hne (by rw [hc.1, hc.2])
    rw [alookup_updAt_self]
    cases h : alookup l' n with
    | some sm =>
      rw [if_pos (by simp [h]), h]
      simp [sceneMem_insScene_ne _ _ _ _ _ _ hsv]
    | none =>
      have hl2 : alookup l' [((l' : Nat), ([] : SceneMap))] = some [] := by
        simp [alookup]
      rw [if_neg (by simp [h]), alookup_append_of_none _ _ _ h, hl2]
      show sceneMem (insScene [] s v (l', s, v)) s' v' = false
      rw [sceneMem_insScene_ne _ _ _ _ _ _ hsv]
      rfl
  · rw [alookup_updAt_ne _ _ _ _ hl]
    by_cases hs : (alookup l n).isSome
    · rw [if_pos hs]
    · rw [if_neg hs, alookup_append_single_ne _ _ _ _ hl]

/-- insLevel preserves dict well-formedness. -/
theorem LevelWF_insLevel (n : LevelMap) (k : PKey) (hwf : LevelWF n) :
    LevelWF (insLevel n k) := by
  obtain ⟨l, s, v⟩ := k
  unfold insLevel LevelWF
  dsimp only
  constructor
  · rw [updAt_keys]
    by_cases hs : (alookup l n).isSome
    · rw [if_pos hs]; exact hwf.1
    · rw [if_neg hs, List.map_append]
      have hnm : l ∉ n.map Prod.fst :=
        not_mem_of_alookup_none _ _ (Option.not_isSome_iff_eq_none.mp hs)
      simp [List.nodup_append, hwf.1, hnm, List.disjoint_singleton]
  · intro q hq
    unfold updAt at hq
    rcases List.mem_map.mp hq with ⟨q0, hq0, rfl⟩
    have hq0' : q0 ∈ n ∨ q0 = (l, ([] : SceneMap)) := by
      by_cases hs : (alookup l n).isSome
      · rw [if_pos hs] at hq0; exact Or.inl hq0
      · rw [if_neg hs] at hq0
        rcases List.mem_append.mp hq0 with hmem | hmem
        · exact Or.inl hmem
        · right; simpa using hmem
    have hnd0 : (q0.2.map Prod.fst).Nodup := by
      rcases hq0' with hmem | rfl
      · exact hwf.2 _ hmem
      · simp
    by_cases hq1 : q0.1 = l
    · simp only [if_pos hq1]
      exact sceneKeys_insScene_nodup _ _ _ _ hnd0
    · simp only [if_neg hq1]
      exact hnd0

/-- The organize_data fold keeps the flat key count equal to the nested leaf
count (with the key/path agreement and well-formedness as auxiliary
invariants). -/
theorem organize_fold_inv (files : List PKey) :
    ∀ (data : List (PKey × PKey)) (n : LevelMap),
      data.length = leaves n →
      (∀ k, (alookup k data).isSome = pathMem n k) →
      LevelWF n →
      (files.foldl (fun st k => (insData st.1 k, insLevel st.2 k))
        (data, n)).1.length
        = leaves (files.foldl (fun st k => (insData st.1 k, insLevel st.2 k))
            (data, n)).2 := by
  induction files with
  | nil => intro data n hlen _ _; exact hlen
  | cons f fs ih =>
    intro data n hlen hmem hwf
    simp only [List.foldl_cons]
    apply ih
    · cases hpm : pathMem n f with
      | true =>
        have hflat : (alookup f data).isSome = true := by rw [hmem f, hpm]
        rw [insData_present _ _ hflat, leaves_insLevel_present _ _ hwf hpm]
        exact hlen
      | false =>
        have hflat : alookup f data = none := by
          have hh := hmem f
          rw [hpm] at hh
          exact Option.not_isSome_iff_eq_none.mp (by simp [hh])
        rw [length_insData_absent _ _ hflat,
          leaves_insLevel_absent _ _ hwf hpm, hlen]
    · intro k'
      by_cases hk : k' = f
      · subst hk
        rw [alookup_insData_self, pathMem_insLevel_self]
      · rw [alookup_insData_ne _ _ _ hk, pathMem_insLevel_ne _ _ _ hk, hmem k']
    · exact LevelWF_insLevel _ _ hwf

/-- dictAssign only introduces entries at the assigned key. -/
theorem mem_dictAssign {α β : Type} [DecidableEq α] (l : List (α × β))
    (k : α) (b : β) (q : α × β) (h : q ∈ dictAssign l k b) :
    q ∈ l ∨ q.1 = k := by
  unfold dictAssign at h
  by_cases hs : (alookup k l).isSome
  · rw [if_pos hs] at h
    unfold updAt at h
    rcases List.mem_map.mp h with ⟨q0, hq0, rfl⟩
    by_cases hq : q0.1 = k
    · right
      rw [if_pos hq]
      exact hq
    · left
      rw [if_neg hq]
      exact hq0
  · rw [if_neg hs] at h
    rcases List.mem_append.mp h with hmem | hmem
    · exact Or.inl hmem
    · right
      simp at hmem
      rw [hmem]

/-- Every key kept by the level_split copy loop has the selected level. -/
theorem level_split_data_levels (data : List (PKey × PKey)) (L : Nat) :
    ∀ kv ∈ level_split_data data L, kv.1.1 = L := by
  unfold level_split_data
  have main : ∀ (d : List (PKey × PKey)) (sd : List (PKey × PKey)),
      (∀ kv ∈ sd, kv.1.1 = L) →
      ∀ kv ∈ d.foldl
        (fun sd q => if q.1.1 = L then dictAssign sd q.1 q.2 else sd) sd,
        kv.1.1 = L := by
    intro d
    induction d with
    | nil => intro sd h kv hm; exact h kv hm
    | cons q d ih =>
      intro sd h kv hm
      simp only [List.foldl_cons] at hm
      refine ih _ ?_ kv hm
      intro kv' hm'
      by_cases hq : q.1.1 = L
      · rw [if_pos hq] at hm'
        rcases mem_dictAssign _ _ _ _ hm' with hmem | hfst
        · exact h kv' hmem
        · rw [hfst]; exact hq
      · rw [if_neg hq] at hm'
        exact h kv' hm'
  intro kv hm
  exact main data [] (by intro kv' hm'; simp at hm') kv hm

/-- C8: for any scanned key list, the flat mapping built by organize_data has
exactly as many keys as the nested mapping has (level, scene, variant)
leaves; and every key in the flat mapping of the instance returned by
level_split(L) has level component L. -/
theorem organize_data_flat_eq_leaves_and_split (files : List PKey) (L : Nat) :
    (organize_data files).1.length = leaves (organize_data files).2 ∧
    ∀ kv ∈ level_split_data (organize_data files).1 L, kv.1.1 = L := by
  constructor
  · exact organize_fold_inv files [] [] rfl (fun k => rfl)
      ⟨List.nodup_nil, by simp⟩
  · exact level_split_data_levels _ _

/-- C8 witness: a concrete scan with a repeated key and two levels; the split
at level 1 keeps only level-1 keys. -/
theorem organize_data_witness :
    (organize_data [(1, 2, 3), (1, 2, 3), (2, 5, 7)]).1.length
        = leaves (organize_data [(1, 2, 3), (1, 2, 3), (2, 5, 7)]).2 ∧
      (((1, 2, 3), (1, 2, 3)) : PKey × PKey).1.1 = 1 :=
  ⟨(organize_data_flat_eq_leaves_and_split [(1, 2, 3), (1, 2, 3), (2, 5, 7)] 1).1,
    (organize_data_flat_eq_leaves_and_split [(1, 2, 3), (1, 2, 3), (2, 5, 7)] 1).2
      ((1, 2, 3), (1, 2, 3)) (by decide)⟩

/-- C9: integer indexing into PoseData discards the integer: for every i,
__getitem__(i) performs the single nested lookup at level 1 — returning the
level-1 scene map when level 1 exists and KeyError otherwise — and never
selects the i-th record (the result does not depend on i or on the flat
data). -/
theorem getitem_int (data : List (PKey × PKey)) (nested : LevelMap)
    (i : Int) :
    PoseData_getitem data nested (PDIndex.pint i)
        = pdChild (PDVal.vmap3 nested) 1 ∧
      (alookup 1 nested = none →
        PoseData_getitem data nested (PDIndex.pint i)
          = Except.error PyErr.keyError) ∧
      (∀ sm, alookup 1 nested = some sm →
        PoseData_getitem data nested (PDIndex.pint i)
          = Except.ok (PDVal.vmap2 sm)) := by
  have hmain : PoseData_getitem data nested (PDIndex.pint i)
      = pdChild (PDVal.vmap3 nested) 1 := by
    show List.foldlM pdChild (PDVal.vmap3 nested) [1]
        = pdChild (PDVal.vmap3 nested) 1
    cases h : pdChild (PDVal.vmap3 nested) 1 <;>
      simp [List.foldlM, h, Except.bind]
  refine ⟨hmain, ?_, ?_⟩
  · intro hnone
    rw [hmain]
    show (match alookup (1 : Nat) nested with
      | some x => Except.ok (PDVal.vmap2 x)
      | none => Except.error PyErr.keyError) = Except.error PyErr.keyError
    rw [hnone]
  · intro sm hsome
    rw [hmain]
    show (match alookup (1 : Nat) nested with
      | some x => Except.ok (PDVal.vmap2 x)
      | none => Except.error PyErr.keyError) = Except.ok (PDVal.vmap2 sm)
    rw [hsome]

/-- C9 witness: with level 1 present, __getitem__(42) returns the level-1
scene map, ignoring the 42. -/
theorem getitem_int_witness :
    PoseData_getitem [] [(1, [(5, [(7, (1, 5, 7))])])] (PDIndex.pint 42)
      = Except.ok (PDVal.vmap2 [(5, [(7, (1, 5, 7))])]) :=
  (getitem_int [] [(1, [(5, [(7, (1, 5, 7))])])] 42).2.2 _ rfl
